import Mathlib

/-!
# Shallow embedding of `src/dna_codec.cpp`

The program encodes byte payloads into a four-letter nucleotide alphabet and
back.  Bytes are modelled as `Nat` (a C++ `char` contributes its value mod
256), bit strings as `List Bool` (most significant bit of each byte first,
as `bitset<8>::to_string` produces), and nucleotide strings as `List Char`.

`std::string::substr(pos, count)` throws `std::out_of_range` when
`pos > size()`, so the slicing steps return `Except`; `std::string::find`
returns the `size_t` value `npos = 2^64 - 1` when the character is absent,
and the position arithmetic of `doFileDecode` wraps mod `2^64`, which the
embedding reproduces explicitly.
-/

namespace DnaCodec

/-- The `PROMOTER` constant, dna_codec.cpp line 42. -/
def PROMOTER : List Char := "ATGCATGC".toList

/-- The `TERMINATOR` constant, line 43. -/
def TERMINATOR : List Char := "TTAATTAA".toList

/-- The `MARKER` constant, line 44. -/
def MARKER : List Char := "GGCCGGCC".toList

theorem PROMOTER_length : PROMOTER.length = 8 := rfl

theorem TERMINATOR_length : TERMINATOR.length = 8 := rfl

theorem MARKER_length : MARKER.length = 8 := rfl

/-- One entry of the `binaryToNucleotide` table (lines 175-177):
`{"00",'A'}, {"01",'C'}, {"10",'G'}, {"11",'T'}`. -/
def nucChar (b1 b2 : Bool) : Char :=
  match b1, b2 with
  | false, false => 'A'
  | false, true  => 'C'
  | true,  false => 'G'
  | true,  true  => 'T'

/-- Function `binaryToNucleotide` (lines 174-185): walks the bit string two characters
at a time (`substr(i, 2)`, `i += 2`); a trailing odd bit gives a one-character
chunk that is not a key of the table, so `unordered_map::operator[]`
default-inserts `char()` = `'\0'` and that NUL is appended. -/
def binaryToNucleotide : List Bool → List Char
  | b1 :: b2 :: rest => nucChar b1 b2 :: binaryToNucleotide rest
  | [] => []
  | [_] => [Char.ofNat 0]

/-- One lookup in the `nucleotideToBinary` table (lines 189-191); a character
outside {A,C,G,T} is not a key, so `operator[]` default-inserts the empty
string and nothing is appended. -/
def charBits (c : Char) : List Bool :=
  if c = 'A' then [false, false]
  else if c = 'C' then [false, true]
  else if c = 'G' then [true, false]
  else if c = 'T' then [true, true]
  else []

/-- Function `nucleotideToBinary` (lines 188-198): `binaryStr += nucleotideToBinary[ch]`
for each character of the sequence. -/
def nucleotideToBinary : List Char → List Bool
  | [] => []
  | c :: rest => charBits c ++ nucleotideToBinary rest

/-- The step `bitset<8>(ch).to_string()` (line 211): the 8 bits of the byte value of
`ch`, most significant first (a `char` converts to its value mod 256). -/
def byteToBits (ch : Nat) : List Bool :=
  [decide (ch % 256 / 128 % 2 = 1), decide (ch % 256 / 64 % 2 = 1),
   decide (ch % 256 / 32 % 2 = 1), decide (ch % 256 / 16 % 2 = 1),
   decide (ch % 256 / 8 % 2 = 1), decide (ch % 256 / 4 % 2 = 1),
   decide (ch % 256 / 2 % 2 = 1), decide (ch % 256 % 2 = 1)]

/-- The padding loop of `messageToBinary` (lines 206-208):
`while ((4 * paddedMessage.length()) % 3 != 0) paddedMessage += ' ';`
(0x20 = 32 is the space byte). -/
def padMessage (m : List Nat) : List Nat :=
  if h : (4 * m.length) % 3 ≠ 0 then padMessage (m ++ [32]) else m
termination_by (3 - m.length % 3) % 3
decreasing_by
  simp only [List.length_append, List.length_singleton]
  have h3 : m.length % 3 = 1 ∨ m.length % 3 = 2 := by omega
  have e1 : (m.length + 1) % 3 = (m.length % 3 + 1) % 3 := by omega
  rcases h3 with h1 | h1 <;> rw [e1, h1] <;> decide

/-- Function `messageToBinary` (lines 201-215): pad with spaces, then append
`bitset<8>(ch)` for every character of the padded message. -/
def messageToBinary (message : List Nat) : List Bool :=
  (padMessage message).flatMap byteToBits

/-- The step `bitset<8>(byte).to_ulong()` (line 222): the chunk read as a binary
numeral, its rightmost character being bit 0. -/
def bitsToByte (l : List Bool) : Nat :=
  l.foldl (fun acc b => 2 * acc + (if b then 1 else 0)) 0

/-- Function `binaryToMessage` (lines 218-226): chunks of 8 (`substr(i, 8)` clamps the
final chunk to what remains), each chunk becoming one byte value. -/
def binaryToMessage : List Bool → List Nat
  | [] => []
  | b1 :: b2 :: b3 :: b4 :: b5 :: b6 :: b7 :: b8 :: rest =>
      bitsToByte [b1, b2, b3, b4, b5, b6, b7, b8] :: binaryToMessage rest
  | l => [bitsToByte l]

/-- The value `2^64`, the modulus of C++ `size_t` arithmetic. -/
def W : Nat := 2 ^ 64

/-- The value `std::string::npos`. -/
def NPOS : Nat := 2 ^ 64 - 1

/-- Wrapping `size_t` subtraction: `a - b` wrapping mod `2^64` (for `a < 2^64`). -/
def sub64 (a b : Nat) : Nat := (a + W - b % W) % W

/-- The error a slicing step can raise: `std::string::substr` throws
`std::out_of_range` when `pos > size()`. -/
inductive CppError where
  | outOfRange
deriving DecidableEq

deriving instance DecidableEq for Except

/-- C++ `std::string::substr(pos, count)`: out of range when `pos > size()`,
otherwise at most `count` characters starting at `pos`. -/
def substr {α : Type} (l : List α) (pos cnt : Nat) : Except CppError (List α) :=
  if l.length < pos then .error .outOfRange else .ok ((l.drop pos).take cnt)

/-- C++ `std::string::substr(pos)` with the default count `npos`: everything from
`pos` on. -/
def substrEnd {α : Type} (l : List α) (pos : Nat) : Except CppError (List α) :=
  if l.length < pos then .error .outOfRange else .ok (l.drop pos)

/-- The frame-stripping slice shared by `doStringDecode` (line 101) and
`doFileDecode` (line 140):
`seq.substr(PROMOTER.length, seq.length - PROMOTER.length - TERMINATOR.length - MARKER.length)`.
The count is computed in `size_t`, so when `8 ≤ length < 24` it underflows to
a value near `2^64` and `substr` clamps it to everything after position 8;
the two cases below spell out that wrap-then-clamp. -/
def stripFrame (dnaSeq : List Char) : Except CppError (List Char) :=
  substr dnaSeq PROMOTER.length
    (if PROMOTER.length + TERMINATOR.length + MARKER.length ≤ dnaSeq.length then
       dnaSeq.length - (PROMOTER.length + TERMINATOR.length + MARKER.length)
     else
       dnaSeq.length - PROMOTER.length)

/-- The bytes of the literal `"STRING:"` (line 93). -/
def stringTag : List Nat := "STRING:".toList.map Char.toNat

/-- The bytes of the literal `"FILE:"` (line 115). -/
def fileTag : List Nat := "FILE:".toList.map Char.toNat

/-- Function `doStringEncode` (lines 92-98): the framed sequence printed for `-e`;
the message bytes are prefixed with `"STRING:"`. -/
def doStringEncode (message : List Nat) : List Char :=
  PROMOTER ++ binaryToNucleotide (messageToBinary (stringTag ++ message)) ++
    TERMINATOR ++ MARKER

/-- Function `doStringDecode` (lines 100-109): strip the frame by fixed-length slicing,
decode back to bytes, and print the payload after the tag only when the bytes
start with `"STRING:"` (`rfind("STRING:", 0) == 0`); with any other prefix the
function returns `true` having printed nothing, modelled as `.ok none`. -/
def doStringDecode (dnaSeq : List Char) : Except CppError (Option (List Nat)) :=
  match stripFrame dnaSeq with
  | .error e => .error e
  | .ok mid =>
    let decoded := binaryToMessage (nucleotideToBinary mid)
    if stringTag.isPrefixOf decoded then .ok (some (decoded.drop 7)) else .ok none

/-- Function `doFileEncode` (lines 111-125), its codec core: reading the input file and
writing the `.dna` file are I/O glue; the bytes of name and contents are
framed after the header `"FILE:" + fileName + ":"` (0x3A = 58 is the colon). -/
def doFileEncode (fileName fileContents : List Nat) : List Char :=
  PROMOTER ++
    binaryToNucleotide (messageToBinary (fileTag ++ fileName ++ [58] ++ fileContents)) ++
    TERMINATOR ++ MARKER

/-- C++ `std::string::find(ch, pos)`: index of the first occurrence at or after
`pos`, `npos` when there is none. -/
def findFrom (l : List Nat) (t pos : Nat) : Nat :=
  match (l.drop pos).findIdx? (· = t) with
  | some i => pos + i
  | none => NPOS

/-- What `doFileDecode` does after the I/O succeeds: write `fileContent` to a
file named `fileName`, or report one of its two error messages. -/
inductive FileDecodeResult where
  | decodedFile (fileName fileContent : List Nat)
  | invalidContent
  | invalidHeader
deriving DecidableEq

/-- Function `doFileDecode` (lines 127-171), its codec core: the `.dna` suffix check
and the file reads/writes are glue; given the characters of the `.dna` file it
strips the frame by the same fixed-length slice (line 140), decodes to bytes,
and parses the `FILE:` header by colon search (lines 145-155).  `find`
positions are `size_t`: a missing colon is `npos = 2^64 - 1`, and the
`firstColon + 1`, `secondColon - firstColon - 1` and `secondColon + 1`
arithmetic wraps mod `2^64` exactly as in C++. -/
def doFileDecode (dnaContents : List Char) : Except CppError FileDecodeResult :=
  match stripFrame dnaContents with
  | .error e => .error e
  | .ok cleanDNA =>
    let decoded := binaryToMessage (nucleotideToBinary cleanDNA)
    if fileTag.isPrefixOf decoded then
      let firstColon := findFrom decoded 58 5
      let secondColon := findFrom decoded 58 ((firstColon + 1) % W)
      match substr decoded ((firstColon + 1) % W) (sub64 (sub64 secondColon firstColon) 1) with
      | .error e => .error e
      | .ok originalFileName =>
        match substrEnd decoded ((secondColon + 1) % W) with
        | .error e => .error e
        | .ok fileContent =>
          if originalFileName = [] ∨ fileContent = [] then .ok .invalidContent
          else .ok (.decodedFile originalFileName fileContent)
    else .ok .invalidHeader

/-! ## Basic facts about the embedded operations -/

theorem stringTag_length : stringTag.length = 7 := rfl

theorem byteToBits_length (c : Nat) : (byteToBits c).length = 8 := rfl

theorem ite_mod_two (n : Nat) : (if n % 2 = 1 then (1 : Nat) else 0) = n % 2 := by
  rcases Nat.mod_two_eq_zero_or_one n with h | h <;> simp [h]

/-- Reading back the 8 bits of a byte gives the byte value mod 256. -/
theorem bitsToByte_byteToBits (c : Nat) : bitsToByte (byteToBits c) = c % 256 := by
  simp only [byteToBits, bitsToByte, List.foldl_cons, List.foldl_nil,
    decide_eq_true_eq, ite_mod_two]
  have hb : c % 256 < 256 := Nat.mod_lt _ (by norm_num)
  generalize c % 256 = b at hb ⊢
  interval_cases b <;> decide

theorem flatMap_byteToBits_length (l : List Nat) :
    (l.flatMap byteToBits).length = 8 * l.length := by
  induction l with
  | nil => rfl
  | cons c t ih =>
    simp only [List.flatMap_cons, List.length_append, byteToBits_length, ih,
      List.length_cons]
    omega

/-- Function `binaryToMessage` inverts the byte-to-bits expansion, byte by byte. -/
theorem binaryToMessage_flatMap (l : List Nat) :
    binaryToMessage (l.flatMap byteToBits) = l.map (· % 256) := by
  induction l with
  | nil => rfl
  | cons c t ih =>
    rw [List.flatMap_cons,
      show binaryToMessage (byteToBits c ++ t.flatMap byteToBits)
        = bitsToByte (byteToBits c) :: binaryToMessage (t.flatMap byteToBits) from rfl,
      bitsToByte_byteToBits, ih, List.map_cons]

theorem charBits_nucChar (b1 b2 : Bool) : charBits (nucChar b1 b2) = [b1, b2] := by
  cases b1 <;> cases b2 <;> rfl

/-- On an even-length bit string the symbol layer round-trips exactly. -/
theorem nucleotideToBinary_binaryToNucleotide :
    ∀ bits : List Bool, bits.length % 2 = 0 →
      nucleotideToBinary (binaryToNucleotide bits) = bits
  | [], _ => rfl
  | [_], h => by simp at h
  | b1 :: b2 :: rest, h => by
    have hr : rest.length % 2 = 0 := by simp only [List.length_cons] at h; omega
    calc nucleotideToBinary (binaryToNucleotide (b1 :: b2 :: rest))
        = charBits (nucChar b1 b2) ++ nucleotideToBinary (binaryToNucleotide rest) := rfl
      _ = b1 :: b2 :: rest := by
          rw [charBits_nucChar, nucleotideToBinary_binaryToNucleotide rest hr]; rfl

theorem two_mul_binaryToNucleotide_length :
    ∀ bits : List Bool, bits.length % 2 = 0 →
      2 * (binaryToNucleotide bits).length = bits.length
  | [], _ => rfl
  | [_], h => by simp at h
  | b1 :: b2 :: rest, h => by
    have hr : rest.length % 2 = 0 := by simp only [List.length_cons] at h; omega
    have ih := two_mul_binaryToNucleotide_length rest hr
    simp only [binaryToNucleotide, List.length_cons]
    omega

/-- Closed form of the padding loop: it appends `(3 - length mod 3) mod 3`
space bytes (so at most two). -/
theorem padMessage_eq (m : List Nat) :
    padMessage m = m ++ List.replicate ((3 - m.length % 3) % 3) 32 := by
  have h3 : m.length % 3 = 0 ∨ m.length % 3 = 1 ∨ m.length % 3 = 2 := by omega
  rcases h3 with h | h | h
  · rw [padMessage, dif_neg (by omega), h]
    simp
  · rw [padMessage, dif_pos (by omega),
      padMessage, dif_pos (by simp only [List.length_append, List.length_singleton]; omega),
      padMessage, dif_neg (by simp only [List.length_append, List.length_singleton]; omega), h]
    simp [List.append_assoc]
  · rw [padMessage, dif_pos (by omega),
      padMessage, dif_neg (by simp only [List.length_append, List.length_singleton]; omega), h]
    simp

theorem padMessage_length_mod_three (m : List Nat) : (padMessage m).length % 3 = 0 := by
  rw [padMessage_eq]
  simp only [List.length_append, List.length_replicate]
  omega

/-- Decoding the nucleotides of an encoded message recovers the padded
payload, byte values reduced mod 256. -/
theorem decoded_mid (m : List Nat) :
    binaryToMessage (nucleotideToBinary (binaryToNucleotide (messageToBinary m)))
      = (padMessage m).map (· % 256) := by
  have heven : (messageToBinary m).length % 2 = 0 := by
    rw [messageToBinary, flatMap_byteToBits_length]; omega
  rw [nucleotideToBinary_binaryToNucleotide (messageToBinary m) heven,
    messageToBinary, binaryToMessage_flatMap]

theorem map_mod_eq_self (l : List Nat) (h : ∀ c ∈ l, c < 256) :
    l.map (· % 256) = l := by
  induction l with
  | nil => rfl
  | cons c t ih =>
    have hc : c < 256 := h c (by simp)
    rw [List.map_cons, Nat.mod_eq_of_lt hc, ih (fun x hx => h x (by simp [hx]))]

/-- The fixed-length slice of the decoder undoes the framing of the encoder. -/
theorem stripFrame_frame (X : List Char) :
    stripFrame (PROMOTER ++ X ++ TERMINATOR ++ MARKER) = .ok X := by
  have hlen : (PROMOTER ++ X ++ TERMINATOR ++ MARKER).length = X.length + 24 := by
    simp only [List.length_append, PROMOTER_length, TERMINATOR_length, MARKER_length]
    omega
  unfold stripFrame substr
  rw [if_neg (by rw [hlen, PROMOTER_length]; omega),
    if_pos (by rw [hlen, PROMOTER_length, TERMINATOR_length, MARKER_length]; omega)]
  have hcnt : (PROMOTER ++ X ++ TERMINATOR ++ MARKER).length -
      (PROMOTER.length + TERMINATOR.length + MARKER.length) = X.length := by
    rw [hlen, PROMOTER_length, TERMINATOR_length, MARKER_length]
    omega
  have hdrop : (PROMOTER ++ X ++ TERMINATOR ++ MARKER).drop PROMOTER.length
      = X ++ TERMINATOR ++ MARKER := by
    rw [show PROMOTER ++ X ++ TERMINATOR ++ MARKER
        = PROMOTER ++ (X ++ TERMINATOR ++ MARKER) from by simp [List.append_assoc],
      List.drop_left]
  rw [hcnt, hdrop,
    show X ++ TERMINATOR ++ MARKER = X ++ (TERMINATOR ++ MARKER) from by
      simp [List.append_assoc],
    List.take_left]

/-- Running `doStringDecode` on a well-formed frame reduces to the header check on
the decoded bytes. -/
theorem doStringDecode_frame (mid : List Char) :
    doStringDecode (PROMOTER ++ mid ++ TERMINATOR ++ MARKER) =
      if stringTag.isPrefixOf (binaryToMessage (nucleotideToBinary mid))
      then .ok (some ((binaryToMessage (nucleotideToBinary mid)).drop 7))
      else .ok none := by
  unfold doStringDecode
  rw [stripFrame_frame]

/-- The string pipeline round-trips up to the appended padding spaces: the
decoder prints the original message followed by exactly the pad bytes. -/
theorem doStringDecode_doStringEncode (msg : List Nat) (h : ∀ c ∈ msg, c < 256) :
    doStringDecode (doStringEncode msg)
      = .ok (some (msg ++ List.replicate ((3 - (7 + msg.length) % 3) % 3) 32)) := by
  rw [show doStringEncode msg
      = PROMOTER ++ binaryToNucleotide (messageToBinary (stringTag ++ msg)) ++
        TERMINATOR ++ MARKER from rfl,
    doStringDecode_frame, decoded_mid, padMessage_eq]
  have hall : ∀ c ∈ stringTag ++ msg ++
      List.replicate ((3 - (stringTag ++ msg).length % 3) % 3) 32, c < 256 := by
    intro c hc
    simp only [List.mem_append] at hc
    rcases hc with (hc | hc) | hc
    · exact (by decide : ∀ c ∈ stringTag, c < 256) c hc
    · exact h c hc
    · rw [List.eq_of_mem_replicate hc]; omega
  rw [map_mod_eq_self _ hall, List.append_assoc,
    if_pos (List.isPrefixOf_iff_prefix.mpr (List.prefix_append _ _))]
  have hdrop : (stringTag ++
      (msg ++ List.replicate ((3 - (stringTag ++ msg).length % 3) % 3) 32)).drop 7
      = msg ++ List.replicate ((3 - (stringTag ++ msg).length % 3) % 3) 32 := by
    rw [show (7 : Nat) = stringTag.length from rfl, List.drop_left]
  rw [hdrop]
  have hk : (3 - (stringTag ++ msg).length % 3) % 3 = (3 - (7 + msg.length) % 3) % 3 := by
    rw [List.length_append, stringTag_length]
  rw [hk]

/-- The decoder never inspects the first eight characters: it only slices
them away, so any two framed inputs differing only there decode alike. -/
theorem doStringDecode_ignores_head (p q x : List Char)
    (hp : p.length = 8) (hq : q.length = 8) :
    doStringDecode (p ++ x) = doStringDecode (q ++ x) := by
  unfold doStringDecode stripFrame substr
  have hl : (p ++ x).length = (q ++ x).length := by
    simp only [List.length_append, hp, hq]
  have hd8 : ∀ r : List Char, r.length = 8 → (r ++ x).drop 8 = x := by
    intro r hr
    rw [← hr, List.drop_left]
  have hd : (p ++ x).drop PROMOTER.length = (q ++ x).drop PROMOTER.length := by
    rw [PROMOTER_length, hd8 p hp, hd8 q hq]
  rw [hl, hd]

/-- Claim C1: decoding the framed sequence produced by `doStringEncode`
recovers the original message exactly, up to the trailing space bytes the
padding step appended — nothing else differs. -/
theorem string_roundtrip (msg : List Nat) (h : ∀ c ∈ msg, c < 256) :
    doStringDecode (doStringEncode msg)
      = .ok (some (msg ++ List.replicate ((3 - (7 + msg.length) % 3) % 3) 32)) :=
  doStringDecode_doStringEncode msg h

/-- Witness for C1 at the message "HI!" (bytes 72, 73, 33), which the padding
step extends by two spaces. -/
theorem string_roundtrip_witness :
    (∀ c ∈ [72, 73, 33], c < 256) ∧
      doStringDecode (doStringEncode [72, 73, 33])
        = .ok (some ([72, 73, 33] ++ List.replicate ((3 - (7 + 3) % 3) % 3) 32)) :=
  ⟨by decide, string_roundtrip [72, 73, 33] (by decide)⟩

/-- Claim C3: the nucleotide sequence obtained from any input message is
codon-aligned — its length is divisible by 3. -/
theorem encoded_length_codon_aligned (m : List Nat) :
    (binaryToNucleotide (messageToBinary m)).length % 3 = 0 := by
  have hL := padMessage_length_mod_three m
  have hbits : (messageToBinary m).length = 8 * (padMessage m).length := by
    rw [messageToBinary, flatMap_byteToBits_length]
  have heven : (messageToBinary m).length % 2 = 0 := by omega
  have h2 := two_mul_binaryToNucleotide_length (messageToBinary m) heven
  omega

/-- Claim C6: stripping the frame by the decoder's fixed-length slicing from
`PROMOTER ++ X ++ TERMINATOR ++ MARKER` returns exactly `X`. -/
theorem frame_strip_roundtrip (X : List Char) :
    stripFrame (PROMOTER ++ X ++ TERMINATOR ++ MARKER) = .ok X :=
  stripFrame_frame X

/-- Claim C9: the padding loop appends at most two single space bytes, stops
as soon as `(4 × length) mod 3` is zero, and before that every intermediate
length fails the test — so the loop terminates after `k < 3` iterations. -/
theorem padding_loop_behaviour (m : List Nat) :
    ∃ k, k < 3 ∧ padMessage m = m ++ List.replicate k 32 ∧
      (4 * (m.length + k)) % 3 = 0 ∧
      ∀ j, j < k → (4 * (m.length + j)) % 3 ≠ 0 := by
  have h3 : m.length % 3 = 0 ∨ m.length % 3 = 1 ∨ m.length % 3 = 2 := by omega
  refine ⟨(3 - m.length % 3) % 3, by omega, padMessage_eq m, ?_, ?_⟩
  · rcases h3 with h | h | h <;> rw [h] <;> omega
  · intro j hj
    rcases h3 with h | h | h <;> rw [h] at hj <;> omega

/-- Claim C10: any input strictly shorter than the eight-character PROMOTER
makes the fixed-offset slice `substr(8, …)` of `doStringDecode` throw
`std::out_of_range` — the decode has no well-defined result. -/
theorem short_input_decode_error (s : List Char) (h : s.length < 8) :
    doStringDecode s = .error .outOfRange := by
  unfold doStringDecode stripFrame substr
  rw [if_pos (by rw [PROMOTER_length]; omega)]

/-- Witness for C10 at the four-character input "ATGC". -/
theorem short_input_decode_error_witness :
    ("ATGC".toList.length < 8) ∧ doStringDecode "ATGC".toList = .error .outOfRange :=
  ⟨by decide, short_input_decode_error "ATGC".toList (by decide)⟩

/-- Claim C8: encoding "HI" tags the payload as "STRING:HI", the 9 bytes
0x53 0x54 0x52 0x49 0x4E 0x47 0x3A 0x48 0x49; 9 bytes already give a
nucleotide count divisible by 3, so no padding is appended; that makes 72
bits and 36 nucleotides, framed by the constants; decoding the exact framed
string prints "HI" (bytes 72, 73). -/
theorem encode_HI_scenario :
    stringTag ++ [72, 73] = [0x53, 0x54, 0x52, 0x49, 0x4E, 0x47, 0x3A, 0x48, 0x49] ∧
    padMessage (stringTag ++ [72, 73]) = stringTag ++ [72, 73] ∧
    (messageToBinary (stringTag ++ [72, 73])).length = 72 ∧
    (binaryToNucleotide (messageToBinary (stringTag ++ [72, 73]))).length = 36 ∧
    doStringEncode [72, 73] =
      PROMOTER ++ binaryToNucleotide (messageToBinary (stringTag ++ [72, 73])) ++
        TERMINATOR ++ MARKER ∧
    doStringDecode (doStringEncode [72, 73]) = .ok (some [72, 73]) := by
  have hpad : padMessage (stringTag ++ [72, 73]) = stringTag ++ [72, 73] := by
    rw [padMessage_eq]; decide
  refine ⟨by decide, hpad, ?_, ?_, rfl, ?_⟩
  · rw [messageToBinary, hpad]; decide
  · rw [messageToBinary, hpad]; decide
  · rw [doStringDecode_doStringEncode [72, 73] (by decide)]; decide

/-- Claim C4 (behaviour the code actually has): a nucleotide outside
{A,C,G,T} is not rejected — `nucleotideToBinary` silently contributes no
bits for it and decoding proceeds on the remaining characters, so "ANG"
still yields the four bits of "AG". -/
theorem invalid_symbol_silently_skipped :
    (∀ rest : List Char, nucleotideToBinary ('N' :: rest) = nucleotideToBinary rest) ∧
      nucleotideToBinary ['A', 'N', 'G'] = [false, false, true, false] :=
  ⟨fun _ => rfl, by decide⟩

/-- Claim C5 (behaviour the code actually has): changing the first PROMOTER
character of an encoded "HI" does not make decoding fail — `doStringDecode`
never validates the frame, it slices the first eight characters away, so the
mutated sequence still decodes successfully to "HI". -/
theorem mutated_promoter_still_decodes :
    doStringDecode ('T' :: (doStringEncode [72, 73]).drop 1) = .ok (some [72, 73]) := by
  have hx : 'T' :: (doStringEncode [72, 73]).drop 1
      = ('T' :: PROMOTER.drop 1) ++
        (binaryToNucleotide (messageToBinary (stringTag ++ [72, 73])) ++
          TERMINATOR ++ MARKER) := by
    rw [show doStringEncode [72, 73]
        = PROMOTER ++ (binaryToNucleotide (messageToBinary (stringTag ++ [72, 73])) ++
          TERMINATOR ++ MARKER) from by simp [doStringEncode, List.append_assoc],
      List.drop_append_of_le_length (by rw [PROMOTER_length]; omega)]
    rfl
  rw [hx, doStringDecode_ignores_head ('T' :: PROMOTER.drop 1) PROMOTER _
      (by decide) PROMOTER_length,
    show PROMOTER ++ (binaryToNucleotide (messageToBinary (stringTag ++ [72, 73])) ++
        TERMINATOR ++ MARKER) = doStringEncode [72, 73] from by
      simp [doStringEncode, List.append_assoc],
    doStringDecode_doStringEncode [72, 73] (by decide)]
  decide

/-- Claim C7 (behaviour the code actually has): a framed payload whose bytes
start with neither "STRING:" nor "FILE:" — here "XYZ" — makes
`doStringDecode` return success having printed nothing (`.ok none`), not a
distinct error. -/
theorem unrecognized_header_silent :
    doStringDecode (PROMOTER ++ binaryToNucleotide (messageToBinary [88, 89, 90]) ++
      TERMINATOR ++ MARKER) = .ok none := by
  rw [doStringDecode_frame, decoded_mid, padMessage_eq]
  decide

/-- Claim C2 (behaviour the code actually has): the file pipeline does not
round-trip.  Encoding the file name "f" (byte 102) with contents "hi"
(bytes 104, 105) and decoding the result returns the contents "hi" as the
file name — `find(":", 5)` skips the colon of the "FILE:" tag itself — and,
`secondColon` being `npos` so that `npos + 1` wraps to 0, the whole decoded
payload "FILE:f:hi" as the file contents. -/
theorem file_roundtrip_fails :
    doFileDecode (doFileEncode [102] [104, 105])
      = .ok (.decodedFile [104, 105] [70, 73, 76, 69, 58, 102, 58, 104, 105]) := by
  have hpad : padMessage [70, 73, 76, 69, 58, 102, 58, 104, 105]
      = [70, 73, 76, 69, 58, 102, 58, 104, 105] := by
    rw [padMessage_eq]; decide
  rw [show doFileEncode [102] [104, 105]
      = PROMOTER ++ binaryToNucleotide
          (messageToBinary [70, 73, 76, 69, 58, 102, 58, 104, 105]) ++
        TERMINATOR ++ MARKER from rfl,
    messageToBinary, hpad]
  unfold doFileDecode
  rw [stripFrame_frame]
  decide

end DnaCodec
